import Mathlib

/-!
Verification of the transcript/metadata cache subsystem of the
youtube-api-server repository (`app/utils/transcript_cache.py`).

The Python code is shallowly embedded: the `OrderedDict` of the
`MemoryCacheBackend` becomes an association list kept in insertion order
(head = least recently used, last = most recently used), `time.time()`
becomes an explicit `now : Int` argument threaded through every operation,
and the Redis backend's interactions with the external store become an
explicit oracle recording the outcome (value or raised exception) of each
client call, with raised exceptions modelled by `Except`.
-/

/-- One stored cache entry: key, value, absolute expiry instant
(`self._cache[key] = (value, expiry)` in the source). -/
abbrev CacheEntry (α : Type) := String × α × Int

/-- Association-list lookup, mirroring `self._cache[key]` /
`key in self._cache` on the `OrderedDict` (keys are unique there, so the
first match is the only match). -/
def lookupEntry {α : Type} : List (CacheEntry α) → String → Option (α × Int)
  | [], _ => none
  | (k', v, e) :: t, k => if k' = k then some (v, e) else lookupEntry t k

/-- Removal of a key, mirroring `del self._cache[key]` (on an
`OrderedDict` the key occurs at most once, so filtering removes exactly
that binding). -/
def removeKey {α : Type} (c : List (CacheEntry α)) (k : String) : List (CacheEntry α) :=
  c.filter (fun e => e.1 ≠ k)

/-- The eviction loop of `MemoryCacheBackend.set`:
`while len(self._cache) >= self.max_size: self._cache.popitem(last=False)`.
`popitem(last=False)` pops the front (least recently used) entry; on an
**empty** dict it raises `KeyError`, which nothing in the module catches.
That happens exactly when the loop empties the dict and its condition still
holds, i.e. when `max_size ≤ 0` (a non-positive Python `max_size : int` is
modelled by `0`, for which the loop behaves identically); the raise is
modelled by `.error ()`. -/
def evictWhile {α : Type} (max_size : Nat) :
    List (CacheEntry α) → Except Unit (List (CacheEntry α))
  | [] => if max_size ≤ 0 then .error () else .ok []
  | e :: t => if max_size ≤ (e :: t).length then evictWhile max_size t else .ok (e :: t)

/-- `MemoryCacheBackend`: in-memory cache backend using an ordered map for
LRU eviction. `cache` lists entries from least to most recently used. -/
structure MemoryCacheBackend (α : Type) where
  cache : List (CacheEntry α)
  max_size : Nat
deriving DecidableEq

/-- `MemoryCacheBackend.__init__`: empty ordered dict. -/
def MemoryCacheBackend.empty (α : Type) (max_size : Nat) : MemoryCacheBackend α :=
  { cache := [], max_size := max_size }

/-- `MemoryCacheBackend.get`: miss on absent key; on an expired key
(`time.time() > expiry`) delete it and miss; otherwise move the entry to
the most-recently-used end and return its value. Returns the result and
the updated backend. -/
def MemoryCacheBackend.get {α : Type} (b : MemoryCacheBackend α) (now : Int) (key : String) :
    Option α × MemoryCacheBackend α :=
  match lookupEntry b.cache key with
  | none => (none, b)
  | some (value, expiry) =>
    if expiry < now then
      (none, { b with cache := removeKey b.cache key })
    else
      (some value, { b with cache := removeKey b.cache key ++ [(key, value, expiry)] })

/-- `MemoryCacheBackend.set`: remove the key if it already exists, evict
least-recently-used entries while the cache is full, then append the new
entry with expiry `time.time() + ttl_seconds`. The eviction loop's
`KeyError` (reachable only for non-positive `max_size`) propagates out of
`set`, modelled by `.error`. -/
def MemoryCacheBackend.set {α : Type} (b : MemoryCacheBackend α) (now : Int) (key : String)
    (value : α) (ttl_seconds : Int) : Except Unit (MemoryCacheBackend α) :=
  let c1 := removeKey b.cache key
  match evictWhile b.max_size c1 with
  | .error e => .error e
  | .ok c2 => .ok { b with cache := c2 ++ [(key, value, now + ttl_seconds)] }

/-- `MemoryCacheBackend.delete`: remove the key if present. -/
def MemoryCacheBackend.delete {α : Type} (b : MemoryCacheBackend α) (key : String) :
    MemoryCacheBackend α :=
  { b with cache := removeKey b.cache key }

/-- `MemoryCacheBackend.clear`: drop every entry. -/
def MemoryCacheBackend.clear {α : Type} (b : MemoryCacheBackend α) : MemoryCacheBackend α :=
  { b with cache := [] }

/-- `MemoryCacheBackend.size`: `len(self._cache)`. -/
def MemoryCacheBackend.size {α : Type} (b : MemoryCacheBackend α) : Nat :=
  b.cache.length

/-- One backend operation together with the instant at which it runs. -/
inductive CacheOp (α : Type) where
  | get (now : Int) (key : String)
  | set (now : Int) (key : String) (value : α) (ttl_seconds : Int)
  | delete (key : String)
  | clear
deriving DecidableEq

/-- State effect of one operation (the result of a `get` is discarded; a
`set` that raises aborts with the state unchanged — unreachable under the
`max_size ≥ 1` hypothesis of the claims that use operation sequences). -/
def applyOp {α : Type} (b : MemoryCacheBackend α) : CacheOp α → MemoryCacheBackend α
  | .get now key => (b.get now key).2
  | .set now key value ttl =>
    match b.set now key value ttl with
    | .ok b' => b'
    | .error _ => b
  | .delete key => b.delete key
  | .clear => b.clear

/-- State after a finite sequence of operations. -/
def applyOps {α : Type} (b : MemoryCacheBackend α) (ops : List (CacheOp α)) :
    MemoryCacheBackend α :=
  ops.foldl applyOp b

-- Basic lemmas about the list-level helpers.

theorem removeKey_length_le {α : Type} (c : List (CacheEntry α)) (k : String) :
    (removeKey c k).length ≤ c.length :=
  List.length_filter_le _ c

theorem removeKey_length_lt {α : Type} (c : List (CacheEntry α)) (k : String)
    (p : α × Int) (h : lookupEntry c k = some p) :
    (removeKey c k).length < c.length := by
  induction c with
  | nil => simp [lookupEntry] at h
  | cons e t ih =>
    obtain ⟨k', v, ex⟩ := e
    by_cases hk : k' = k
    · subst hk
      have hr : removeKey ((k', v, ex) :: t) k' = removeKey t k' := by
        simp [removeKey]
      rw [hr, List.length_cons]
      exact Nat.lt_succ_of_le (removeKey_length_le t k')
    · simp only [lookupEntry, if_neg hk] at h
      have hr : removeKey ((k', v, ex) :: t) k = (k', v, ex) :: removeKey t k := by
        simp [removeKey, hk]
      rw [hr, List.length_cons, List.length_cons]
      exact Nat.succ_lt_succ (ih h)

theorem evictWhile_ok_length_lt {α : Type} (max_size : Nat) :
    ∀ c c' : List (CacheEntry α), evictWhile max_size c = .ok c' → c'.length < max_size := by
  intro c
  induction c with
  | nil =>
    intro c' h
    by_cases h0 : max_size ≤ 0
    · simp [evictWhile, h0] at h
    · simp only [evictWhile, if_neg h0] at h
      cases h
      simpa using Nat.lt_of_not_le h0
  | cons e t ih =>
    intro c' h
    simp only [evictWhile] at h
    split at h
    · exact ih c' h
    · rename_i hlen
      cases h
      exact Nat.lt_of_not_le hlen

theorem evictWhile_isOk_of_pos {α : Type} (max_size : Nat) (h : 1 ≤ max_size) :
    ∀ c : List (CacheEntry α), ∃ c', evictWhile max_size c = .ok c' := by
  intro c
  induction c with
  | nil =>
    refine ⟨[], ?_⟩
    have h0 : ¬ max_size ≤ 0 := by omega
    simp [evictWhile, h0]
  | cons e t ih =>
    by_cases hlen : max_size ≤ (e :: t).length
    · obtain ⟨c', hc⟩ := ih
      exact ⟨c', by simp only [evictWhile, if_pos hlen]; exact hc⟩
    · exact ⟨e :: t, by simp only [evictWhile, if_neg hlen]⟩

theorem set_eq_ok {α : Type} (b : MemoryCacheBackend α) (now : Int) (key : String)
    (value : α) (ttl : Int) (b' : MemoryCacheBackend α) :
    b.set now key value ttl = .ok b' ↔
      ∃ c2, evictWhile b.max_size (removeKey b.cache key) = .ok c2 ∧
        b' = { b with cache := c2 ++ [(key, value, now + ttl)] } := by
  constructor
  · intro h
    simp only [MemoryCacheBackend.set] at h
    split at h
    · cases h
    · rename_i c2 hev
      cases h
      exact ⟨c2, hev, rfl⟩
  · rintro ⟨c2, hc2, rfl⟩
    simp only [MemoryCacheBackend.set, hc2]

theorem applyOp_max_size {α : Type} (b : MemoryCacheBackend α) (op : CacheOp α) :
    (applyOp b op).max_size = b.max_size := by
  cases op with
  | get now key =>
    simp only [applyOp, MemoryCacheBackend.get]
    cases hl : lookupEntry b.cache key with
    | none => rfl
    | some p =>
      obtain ⟨v, e⟩ := p
      by_cases he : e < now <;> simp [he]
  | set now key value ttl =>
    simp only [applyOp]
    cases hset : b.set now key value ttl with
    | error e => rfl
    | ok b' =>
      obtain ⟨c2, _, rfl⟩ := (set_eq_ok b now key value ttl b').mp hset
      rfl
  | delete key => rfl
  | clear => rfl

theorem set_size_le {α : Type} (b : MemoryCacheBackend α) (now : Int) (key : String)
    (value : α) (ttl : Int) (b' : MemoryCacheBackend α)
    (hset : b.set now key value ttl = .ok b') : b'.size ≤ b.max_size := by
  obtain ⟨c2, hc2, rfl⟩ := (set_eq_ok b now key value ttl b').mp hset
  have h := evictWhile_ok_length_lt b.max_size (removeKey b.cache key) c2 hc2
  simp only [MemoryCacheBackend.size, List.length_append, List.length_cons, List.length_nil]
  omega

theorem get_size_le {α : Type} (b : MemoryCacheBackend α) (now : Int) (key : String) :
    ((b.get now key).2).size ≤ b.size := by
  simp only [MemoryCacheBackend.get]
  cases hl : lookupEntry b.cache key with
  | none => exact le_refl _
  | some p =>
    obtain ⟨v, e⟩ := p
    by_cases he : e < now
    · simp only [if_pos he, MemoryCacheBackend.size]
      exact removeKey_length_le b.cache key
    · simp only [if_neg he, MemoryCacheBackend.size, List.length_append, List.length_cons,
        List.length_nil]
      have := removeKey_length_lt b.cache key (v, e) hl
      omega

theorem applyOp_size_le {α : Type} (b : MemoryCacheBackend α) (op : CacheOp α)
    (_hmax : 1 ≤ b.max_size) (hb : b.size ≤ b.max_size) :
    (applyOp b op).size ≤ b.max_size := by
  cases op with
  | get now key => exact le_trans (get_size_le b now key) hb
  | set now key value ttl =>
    simp only [applyOp]
    cases hset : b.set now key value ttl with
    | error e => exact hb
    | ok b' => exact set_size_le b now key value ttl b' hset
  | delete key => exact le_trans (removeKey_length_le b.cache key) hb
  | clear => exact Nat.zero_le _

theorem applyOps_size_le {α : Type} (ops : List (CacheOp α)) :
    ∀ b : MemoryCacheBackend α, 1 ≤ b.max_size → b.size ≤ b.max_size →
      (applyOps b ops).size ≤ b.max_size := by
  induction ops with
  | nil => intro b _ hb; exact hb
  | cons op rest ih =>
    intro b hmax hb
    have h1 := applyOp_max_size b op
    have h2 : (applyOp b op).size ≤ (applyOp b op).max_size := by
      rw [h1]; exact applyOp_size_le b op hmax hb
    have h3 := ih (applyOp b op) (by rw [h1]; exact hmax) h2
    rw [h1] at h3
    simpa [applyOps] using h3

/-- C1: for every `MemoryCacheBackend` constructed with `max_size ≥ 1`, after
any finite sequence of get/set/delete/clear operations the number of stored
entries (`size()`) never exceeds `max_size`. -/
theorem c1_size_never_exceeds_max {α : Type} (max_size : Nat) (hmax : 1 ≤ max_size)
    (ops : List (CacheOp α)) :
    (applyOps (MemoryCacheBackend.empty α max_size) ops).size ≤ max_size :=
  applyOps_size_le ops (MemoryCacheBackend.empty α max_size) hmax (Nat.zero_le _)

/-- Witness for C1 at a concrete input: `max_size = 2` and three inserts. -/
theorem c1_size_never_exceeds_max_witness :
    1 ≤ 2 ∧
      (applyOps (MemoryCacheBackend.empty Nat 2)
        [CacheOp.set 0 "a" 1 10, CacheOp.set 0 "b" 2 10, CacheOp.set 1 "c" 3 10]).size ≤ 2 :=
  ⟨by decide, c1_size_never_exceeds_max 2 (by decide)
    [CacheOp.set 0 "a" 1 10, CacheOp.set 0 "b" 2 10, CacheOp.set 1 "c" 3 10]⟩

/-- C2: with `max_size = 3`, after inserting A, B, C in order, reading A, then
inserting D, the LRU entry B is evicted while A, C, D remain retrievable with
their stored values. -/
theorem c2_lru_recency_scenario :
    (((applyOps (MemoryCacheBackend.empty Nat 3)
      [CacheOp.set 0 "A" 1 100, CacheOp.set 1 "B" 2 100, CacheOp.set 2 "C" 3 100,
       CacheOp.get 3 "A", CacheOp.set 4 "D" 4 100]).get 5 "B").1 = none) ∧
    (((applyOps (MemoryCacheBackend.empty Nat 3)
      [CacheOp.set 0 "A" 1 100, CacheOp.set 1 "B" 2 100, CacheOp.set 2 "C" 3 100,
       CacheOp.get 3 "A", CacheOp.set 4 "D" 4 100]).get 5 "A").1 = some 1) ∧
    (((applyOps (MemoryCacheBackend.empty Nat 3)
      [CacheOp.set 0 "A" 1 100, CacheOp.set 1 "B" 2 100, CacheOp.set 2 "C" 3 100,
       CacheOp.get 3 "A", CacheOp.set 4 "D" 4 100]).get 5 "C").1 = some 3) ∧
    (((applyOps (MemoryCacheBackend.empty Nat 3)
      [CacheOp.set 0 "A" 1 100, CacheOp.set 1 "B" 2 100, CacheOp.set 2 "C" 3 100,
       CacheOp.get 3 "A", CacheOp.set 4 "D" 4 100]).get 5 "D").1 = some 4) := by
  decide

theorem lookupEntry_removeKey {α : Type} (c : List (CacheEntry α)) (k : String) :
    lookupEntry (removeKey c k) k = none := by
  induction c with
  | nil => rfl
  | cons e t ih =>
    obtain ⟨k', v, ex⟩ := e
    by_cases hk : k' = k
    · subst hk
      simpa [removeKey] using ih
    · have hr : removeKey ((k', v, ex) :: t) k = (k', v, ex) :: removeKey t k := by
        simp [removeKey, hk]
      rw [hr]
      simpa [lookupEntry, hk] using ih

theorem lookupEntry_evictWhile_none {α : Type} (m : Nat) (c c' : List (CacheEntry α))
    (k : String) (hev : evictWhile m c = .ok c') (h : lookupEntry c k = none) :
    lookupEntry c' k = none := by
  induction c generalizing c' with
  | nil =>
    by_cases h0 : m ≤ 0
    · simp [evictWhile, h0] at hev
    · simp only [evictWhile, if_neg h0] at hev
      cases hev
      rfl
  | cons e t ih =>
    obtain ⟨k', v, ex⟩ := e
    by_cases hk : k' = k
    · simp [lookupEntry, hk] at h
    · simp only [lookupEntry, if_neg hk] at h
      simp only [evictWhile] at hev
      split at hev
      · exact ih c' hev h
      · cases hev
        simp only [lookupEntry, if_neg hk]
        exact h

theorem lookupEntry_append_of_none {α : Type} (c1 c2 : List (CacheEntry α)) (k : String)
    (h : lookupEntry c1 k = none) : lookupEntry (c1 ++ c2) k = lookupEntry c2 k := by
  induction c1 with
  | nil => rfl
  | cons e t ih =>
    obtain ⟨k', v, ex⟩ := e
    by_cases hk : k' = k
    · simp [lookupEntry, hk] at h
    · simp only [lookupEntry, if_neg hk] at h
      simpa [lookupEntry, hk] using ih h

/-- C3: for every key, value and `ttl > 0`, a `get(key)` performed at any
instant not later than the expiry `now + ttl` of a just-performed
`set(key, value, ttl)` returns exactly the stored value. -/
theorem c3_get_after_set {α : Type} (b b' : MemoryCacheBackend α) (now now' ttl : Int)
    (key : String) (value : α) (_httl : 0 < ttl)
    (hset : b.set now key value ttl = .ok b') (h : now' ≤ now + ttl) :
    (b'.get now' key).1 = some value := by
  obtain ⟨c2, hc2, rfl⟩ := (set_eq_ok b now key value ttl b').mp hset
  have h1 : lookupEntry c2 key = none :=
    lookupEntry_evictWhile_none b.max_size _ _ _ hc2 (lookupEntry_removeKey b.cache key)
  have hlook : lookupEntry (c2 ++ [(key, value, now + ttl)]) key = some (value, now + ttl) := by
    rw [lookupEntry_append_of_none _ _ _ h1]
    simp [lookupEntry]
  have hne : ¬ (now + ttl < now') := not_lt.mpr h
  simp [MemoryCacheBackend.get, hlook, hne]

/-- Witness for C3 at a concrete input: the set completes with `.ok` and the
read returns the stored value. -/
theorem c3_get_after_set_witness :
    (0 : Int) < 60 ∧
      (MemoryCacheBackend.empty Nat 10).set 5 "k" 42 60 =
        .ok (MemoryCacheBackend.mk [("k", 42, 65)] 10) ∧
      (7 : Int) ≤ 5 + 60 ∧
      ((MemoryCacheBackend.mk [("k", 42, 65)] 10 : MemoryCacheBackend Nat).get 7 "k").1 =
        some 42 :=
  ⟨by decide, rfl, by decide,
    c3_get_after_set (MemoryCacheBackend.empty Nat 10) (MemoryCacheBackend.mk [("k", 42, 65)] 10)
      5 7 60 "k" 42 (by decide) rfl (by decide)⟩

/-- C4: a `get` on a key whose stored expiry instant has strictly passed
returns absent, removes the entry during that `get` (the key no longer
resolves afterwards), and the entry count strictly decreases, so a
subsequent `size()` does not count the entry. -/
theorem c4_expired_get_removes {α : Type} (b : MemoryCacheBackend α) (now : Int)
    (key : String) (v : α) (exp : Int)
    (hl : lookupEntry b.cache key = some (v, exp)) (hexp : exp < now) :
    (b.get now key).1 = none ∧
    (b.get now key).2.cache = removeKey b.cache key ∧
    lookupEntry ((b.get now key).2).cache key = none ∧
    ((b.get now key).2).size < b.size := by
  have hres : b.get now key = (none, { b with cache := removeKey b.cache key }) := by
    simp [MemoryCacheBackend.get, hl, hexp]
  refine ⟨by rw [hres], by rw [hres], ?_, ?_⟩
  · rw [hres]
    exact lookupEntry_removeKey b.cache key
  · rw [hres]
    exact removeKey_length_lt b.cache key (v, exp) hl

/-- Witness for C4 at a concrete input. -/
theorem c4_expired_get_removes_witness :
    lookupEntry (MemoryCacheBackend.mk [("k", 42, 10)] 10 : MemoryCacheBackend Nat).cache "k" =
        some (42, 10) ∧ (10 : Int) < 11 ∧
      ((MemoryCacheBackend.mk [("k", 42, 10)] 10 : MemoryCacheBackend Nat).get 11 "k").1 = none ∧
      ((MemoryCacheBackend.mk [("k", 42, 10)] 10 : MemoryCacheBackend Nat).get 11 "k").2.size <
        (MemoryCacheBackend.mk [("k", 42, 10)] 10 : MemoryCacheBackend Nat).size := by
  have h := c4_expired_get_removes (MemoryCacheBackend.mk [("k", 42, 10)] 10) 11 "k" 42 10
    (by decide) (by decide)
  exact ⟨by decide, by decide, h.1, h.2.2.2⟩

theorem removeKey_append {α : Type} (c1 c2 : List (CacheEntry α)) (k : String) :
    removeKey (c1 ++ c2) k = removeKey c1 k ++ removeKey c2 k := by
  simp [removeKey]

theorem removeKey_eq_self {α : Type} (c : List (CacheEntry α)) (k : String)
    (h : k ∉ c.map Prod.fst) : removeKey c k = c := by
  rw [removeKey, List.filter_eq_self]
  intro e he
  have : e.1 ≠ k := fun hek => h (hek ▸ List.mem_map_of_mem Prod.fst he)
  simpa using this

theorem lookupEntry_eq_none_of_not_mem {α : Type} (c : List (CacheEntry α)) (k : String)
    (h : k ∉ c.map Prod.fst) : lookupEntry c k = none := by
  induction c with
  | nil => rfl
  | cons e t ih =>
    obtain ⟨k', v, ex⟩ := e
    simp only [List.map_cons, List.mem_cons] at h
    push_neg at h
    simp only [lookupEntry, if_neg (Ne.symm h.1)]
    exact ih h.2

/-- C9: a `get` on a present, non-expired key changes only that entry's
recency position: the returned value and the re-inserted entry's value and
expiry are the stored ones, every other entry is preserved with its relative
order (`pre ++ post`), and the entry count and capacity are unchanged. -/
theorem c9_get_frame {α : Type} (b : MemoryCacheBackend α) (pre post : List (CacheEntry α))
    (key : String) (v : α) (exp now : Int)
    (hcache : b.cache = pre ++ (key, v, exp) :: post)
    (hnodup : (b.cache.map Prod.fst).Nodup)
    (hfresh : ¬ exp < now) :
    (b.get now key).1 = some v ∧
    (b.get now key).2.cache = (pre ++ post) ++ [(key, v, exp)] ∧
    ((b.get now key).2).size = b.size ∧
    ((b.get now key).2).max_size = b.max_size := by
  have hmap : b.cache.map Prod.fst = pre.map Prod.fst ++ key :: post.map Prod.fst := by
    simp [hcache]
  rw [hmap, List.nodup_append] at hnodup
  obtain ⟨_, hnr, hdisj⟩ := hnodup
  have hpre : key ∉ pre.map Prod.fst := fun hmem => hdisj hmem (List.mem_cons_self _ _)
  have hpost : key ∉ post.map Prod.fst := (List.nodup_cons.mp hnr).1
  have hlook : lookupEntry b.cache key = some (v, exp) := by
    rw [hcache, lookupEntry_append_of_none _ _ _ (lookupEntry_eq_none_of_not_mem _ _ hpre)]
    simp [lookupEntry]
  have hrem : removeKey b.cache key = pre ++ post := by
    rw [hcache, removeKey_append, removeKey_eq_self _ _ hpre]
    have : removeKey ((key, v, exp) :: post) key = removeKey post key := by
      simp [removeKey]
    rw [this, removeKey_eq_self _ _ hpost]
  have hres : b.get now key =
      (some v, { b with cache := removeKey b.cache key ++ [(key, v, exp)] }) := by
    simp [MemoryCacheBackend.get, hlook, hfresh]
  refine ⟨by rw [hres], by rw [hres, hrem], ?_, by rw [hres]⟩
  rw [hres]
  show (removeKey b.cache key ++ [(key, v, exp)]).length = b.cache.length
  rw [hrem, hcache]
  simp

/-- Witness for C9 at a concrete input: two entries, read of the first. -/
theorem c9_get_frame_witness :
    (MemoryCacheBackend.mk [("a", 1, 50), ("b", 2, 60)] 10 : MemoryCacheBackend Nat).cache =
        [] ++ ("a", 1, 50) :: [("b", 2, 60)] ∧
      (((MemoryCacheBackend.mk [("a", 1, 50), ("b", 2, 60)] 10 :
          MemoryCacheBackend Nat).cache.map Prod.fst).Nodup) ∧
      ¬ (50 : Int) < 7 ∧
      ((MemoryCacheBackend.mk [("a", 1, 50), ("b", 2, 60)] 10 :
          MemoryCacheBackend Nat).get 7 "a").1 = some 1 ∧
      ((MemoryCacheBackend.mk [("a", 1, 50), ("b", 2, 60)] 10 :
          MemoryCacheBackend Nat).get 7 "a").2.cache =
        ([] ++ [("b", 2, 60)]) ++ [("a", 1, 50)] := by
  have h := c9_get_frame (MemoryCacheBackend.mk [("a", 1, 50), ("b", 2, 60)] 10)
    [] [("b", 2, 60)] "a" 1 50 7 (by decide) (by decide) (by decide)
  exact ⟨by decide, by decide, by decide, h.1, h.2.1⟩

/-- Lexicographic comparison of code-point sequences, mirroring how Python
compares the strings handed to `sorted(languages)`. -/
def charListLe : List Char → List Char → Bool
  | [], _ => true
  | _ :: _, [] => false
  | c1 :: t1, c2 :: t2 =>
    if c1 < c2 then true else if c2 < c1 then false else charListLe t1 t2

/-- Python's `<=` on strings: code-point lexicographic order. -/
def pyStrLe (a b : String) : Bool := charListLe a.data b.data

/-- `pyStrLe` as a propositional relation, for use with the sorting API. -/
def pyLeRel : String → String → Prop := fun a b => pyStrLe a b = true

instance : DecidableRel pyLeRel := fun a b => instDecidableEqBool (pyStrLe a b) true

/-- Python's `sorted` on a list of strings: the ascending reordering under
code-point lexicographic order (unique as a list, since equal strings are
identical, so any correct sort yields it). -/
def pySorted (l : List String) : List String := List.insertionSort pyLeRel l

theorem charListLe_total (a : List Char) :
    ∀ b, charListLe a b = true ∨ charListLe b a = true := by
  induction a with
  | nil => intro b; left; rfl
  | cons c1 t1 ih =>
    intro b
    cases b with
    | nil => right; rfl
    | cons c2 t2 =>
      rcases lt_trichotomy c1 c2 with h | h | h
      · left; simp [charListLe, h]
      · subst h
        have hn : ¬ c1 < c1 := lt_irrefl c1
        rcases ih t2 with ht | ht
        · left; simp [charListLe, hn, ht]
        · right; simp [charListLe, hn, ht]
      · right; simp [charListLe, h]

theorem charListLe_trans (a : List Char) :
    ∀ b c, charListLe a b = true → charListLe b c = true → charListLe a c = true := by
  induction a with
  | nil => intro b c _ _; rfl
  | cons x t1 ih =>
    intro b c hab hbc
    cases b with
    | nil => simp [charListLe] at hab
    | cons y t2 =>
      cases c with
      | nil => simp [charListLe] at hbc
      | cons z t3 =>
        rcases lt_trichotomy x y with hxy | hxy | hxy
        · rcases lt_trichotomy y z with hyz | hyz | hyz
          · simp [charListLe, lt_trans hxy hyz]
          · subst hyz; simp [charListLe, hxy]
          · exfalso; simp [charListLe, lt_asymm hyz, hyz] at hbc
        · subst hxy
          have hn : ¬ x < x := lt_irrefl x
          simp only [charListLe, if_neg hn] at hab
          rcases lt_trichotomy x z with hxz | hxz | hxz
          · simp [charListLe, hxz]
          · subst hxz
            simp only [charListLe, if_neg hn] at hbc ⊢
            exact ih t2 t3 hab hbc
          · exfalso; simp [charListLe, lt_asymm hxz, hxz] at hbc
        · exfalso; simp [charListLe, lt_asymm hxy, hxy] at hab

theorem charListLe_antisymm (a : List Char) :
    ∀ b, charListLe a b = true → charListLe b a = true → a = b := by
  induction a with
  | nil =>
    intro b _ hba
    cases b with
    | nil => rfl
    | cons y t2 => simp [charListLe] at hba
  | cons x t1 ih =>
    intro b hab hba
    cases b with
    | nil => simp [charListLe] at hab
    | cons y t2 =>
      rcases lt_trichotomy x y with h | h | h
      · exfalso; simp [charListLe, lt_asymm h, h] at hba
      · subst h
        have hn : ¬ x < x := lt_irrefl x
        simp only [charListLe, if_neg hn] at hab hba
        rw [ih t2 hab hba]
      · exfalso; simp [charListLe, lt_asymm h, h] at hab

instance : IsTotal String pyLeRel := ⟨fun a b => charListLe_total a.data b.data⟩

instance : IsTrans String pyLeRel := ⟨fun a b c => charListLe_trans a.data b.data c.data⟩

instance : IsAntisymm String pyLeRel :=
  ⟨fun a b hab hba => String.toList_inj.mp (charListLe_antisymm a.data b.data hab hba)⟩

theorem pySorted_perm {l1 l2 : List String} (h : l1.Perm l2) : pySorted l1 = pySorted l2 :=
  List.eq_of_perm_of_sorted
    ((List.perm_insertionSort _ l1).trans (h.trans (List.perm_insertionSort _ l2).symm))
    (List.sorted_insertionSort _ l1) (List.sorted_insertionSort _ l2)

/-- `TranscriptCache._make_transcript_key`:
`lang_str = ",".join(sorted(languages)) if languages else "en"` followed by
`f"transcript:{video_id}:{lang_str}"`. A `None` and an empty language list
are both falsy, so both fall back to `"en"`. -/
def makeTranscriptKey (video_id : String) (languages : Option (List String)) : String :=
  let lang_str :=
    match languages with
    | some ls => if ls.isEmpty then "en" else String.intercalate "," (pySorted ls)
    | none => "en"
  "transcript:" ++ video_id ++ ":" ++ lang_str

/-- `TranscriptCache._make_metadata_key`: `f"metadata:{video_id}"`. -/
def makeMetadataKey (video_id : String) : String :=
  "metadata:" ++ video_id

/-- C5: transcript cache-key derivation is order-insensitive (any permutation
of the language list yields a byte-identical key) and the key derived with
languages absent equals the key derived from `["en"]`. -/
theorem c5_key_order_insensitive (video_id : String) (l1 l2 : List String) (h : l1.Perm l2) :
    makeTranscriptKey video_id (some l1) = makeTranscriptKey video_id (some l2) ∧
    makeTranscriptKey video_id none = makeTranscriptKey video_id (some ["en"]) := by
  constructor
  · by_cases h1 : l1.isEmpty
    · have h2 : l2.isEmpty := by
        rw [List.isEmpty_iff] at h1 ⊢
        exact (h1 ▸ h).symm.eq_nil
      simp [makeTranscriptKey, h1, h2]
    · have h2 : ¬ l2.isEmpty := by
        rw [List.isEmpty_iff] at h1 ⊢
        intro hc
        exact h1 (hc ▸ h).eq_nil
      simp only [makeTranscriptKey, if_neg h1, if_neg h2, pySorted_perm h]
  · show "transcript:" ++ video_id ++ ":" ++ "en" =
        "transcript:" ++ video_id ++ ":" ++
          (if (["en"] : List String).isEmpty then "en"
           else String.intercalate "," (pySorted ["en"]))
    have h3 : (if (["en"] : List String).isEmpty then "en"
        else String.intercalate "," (pySorted ["en"])) = "en" := by decide
    rw [h3]

/-- Witness for C5 at a concrete input: `["en","es"]` against `["es","en"]`. -/
theorem c5_key_order_insensitive_witness :
    (["en", "es"].Perm ["es", "en"]) ∧
      makeTranscriptKey "X" (some ["en", "es"]) = makeTranscriptKey "X" (some ["es", "en"]) ∧
      makeTranscriptKey "X" none = makeTranscriptKey "X" (some ["en"]) :=
  ⟨by decide, c5_key_order_insensitive "X" ["en", "es"] ["es", "en"] (by decide)⟩

/-- Configuration consumed from `app.core.config.settings`. -/
structure Settings where
  CACHE_ENABLED : Bool
  CACHE_TTL_SECONDS : Int
  CACHE_MAX_SIZE : Nat
  CACHE_BACKEND : String
  REDIS_URL : String
deriving DecidableEq

/-- Outcomes of the external calls a single Redis backend operation can make:
`.error` stands for the call raising an exception, `.ok` for its return
value. `rawGet` is `self._redis.get`, `parse` is `json.loads`, `dumps` is
`json.dumps`, `setex` is `self._redis.setex`, `del` is `self._redis.delete`,
`scanClear` is the scan/delete loop of `clear`, `scanCount` the scan loop of
`size`. -/
structure RedisOracle (α : Type) where
  rawGet : Except Unit (Option String)
  parse : Except Unit α
  dumps : Except Unit String
  setex : Except Unit Unit
  del : Except Unit Unit
  scanClear : Except Unit Unit
  scanCount : Except Unit Nat

/-- `RedisCacheBackend.get`: the whole body is inside `try`; any raise is
caught, logged and turned into `None`. -/
def RedisCacheBackend.get {α : Type} (w : RedisOracle α) : Except Unit (Option α) :=
  match w.rawGet with
  | .error _ => .ok none
  | .ok none => .ok none
  | .ok (some _) =>
    match w.parse with
    | .error _ => .ok none
    | .ok v => .ok (some v)

/-- `RedisCacheBackend.set`: `json.dumps` and `setex` run inside `try`; any
raise is caught and the write dropped. -/
def RedisCacheBackend.set {α : Type} (w : RedisOracle α) : Except Unit Unit :=
  match w.dumps with
  | .error _ => .ok ()
  | .ok _ =>
    match w.setex with
    | .error _ => .ok ()
    | .ok _ => .ok ()

/-- `RedisCacheBackend.delete`: exceptions caught, logged, dropped. -/
def RedisCacheBackend.delete {α : Type} (w : RedisOracle α) : Except Unit Unit :=
  match w.del with
  | .error _ => .ok ()
  | .ok _ => .ok ()

/-- `RedisCacheBackend.clear`: the scan/delete loop runs inside `try`. -/
def RedisCacheBackend.clear {α : Type} (w : RedisOracle α) : Except Unit Unit :=
  match w.scanClear with
  | .error _ => .ok ()
  | .ok _ => .ok ()

/-- `RedisCacheBackend.size`: the scan loop runs inside `try`; on an
exception the method returns 0. -/
def RedisCacheBackend.size {α : Type} (w : RedisOracle α) : Except Unit Nat :=
  match w.scanCount with
  | .error _ => .ok 0
  | .ok n => .ok n

/-- The backend held by the facade: the in-process LRU store, or the remote
store (whose state lives behind the oracle, so the variant carries none). -/
inductive Backend (α : Type) where
  | memory (b : MemoryCacheBackend α)
  | redis
deriving DecidableEq

/-- Dynamic dispatch of `CacheBackend.get`. -/
def Backend.get {α : Type} (bk : Backend α) (w : RedisOracle α) (now : Int) (key : String) :
    Except Unit (Option α × Backend α) :=
  match bk with
  | .memory b =>
    let r := b.get now key
    .ok (r.1, .memory r.2)
  | .redis => (RedisCacheBackend.get w).map (fun v => (v, .redis))

/-- Dynamic dispatch of `CacheBackend.set`. -/
def Backend.set {α : Type} (bk : Backend α) (w : RedisOracle α) (now : Int) (key : String)
    (value : α) (ttl_seconds : Int) : Except Unit (Backend α) :=
  match bk with
  | .memory b => (b.set now key value ttl_seconds).map Backend.memory
  | .redis => (RedisCacheBackend.set w).map (fun _ => .redis)

/-- Dynamic dispatch of `CacheBackend.clear`. -/
def Backend.clear {α : Type} (bk : Backend α) (w : RedisOracle α) : Except Unit (Backend α) :=
  match bk with
  | .memory b => .ok (.memory b.clear)
  | .redis => (RedisCacheBackend.clear w).map (fun _ => .redis)

/-- Dynamic dispatch of `CacheBackend.size`. -/
def Backend.size {α : Type} (bk : Backend α) (w : RedisOracle α) : Except Unit Nat :=
  match bk with
  | .memory b => .ok b.size
  | .redis => RedisCacheBackend.size w

/-- The `TranscriptCache` facade state. -/
structure TranscriptCache (α : Type) where
  enabled : Bool
  ttl_seconds : Int
  max_size : Nat
  backend_type : String
  backend : Option (Backend α)
deriving DecidableEq

/-- `TranscriptCache.__init__`: copy the settings; with caching disabled no
backend is built; with the `"redis"` selector a failed
`RedisCacheBackend.__init__` (`redisInit = .error`) is caught and the
bounded-LRU backend installed instead, recording `backend_type = "memory"`;
otherwise the LRU backend is built. -/
def TranscriptCache.init (α : Type) (s : Settings) (redisInit : Except Unit Unit) :
    TranscriptCache α :=
  if s.CACHE_ENABLED = false then
    { enabled := s.CACHE_ENABLED, ttl_seconds := s.CACHE_TTL_SECONDS,
      max_size := s.CACHE_MAX_SIZE, backend_type := s.CACHE_BACKEND, backend := none }
  else if s.CACHE_BACKEND = "redis" then
    match redisInit with
    | .ok _ =>
      { enabled := s.CACHE_ENABLED, ttl_seconds := s.CACHE_TTL_SECONDS,
        max_size := s.CACHE_MAX_SIZE, backend_type := s.CACHE_BACKEND,
        backend := some .redis }
    | .error _ =>
      { enabled := s.CACHE_ENABLED, ttl_seconds := s.CACHE_TTL_SECONDS,
        max_size := s.CACHE_MAX_SIZE, backend_type := "memory",
        backend := some (.memory (MemoryCacheBackend.empty α s.CACHE_MAX_SIZE)) }
  else
    { enabled := s.CACHE_ENABLED, ttl_seconds := s.CACHE_TTL_SECONDS,
      max_size := s.CACHE_MAX_SIZE, backend_type := s.CACHE_BACKEND,
      backend := some (.memory (MemoryCacheBackend.empty α s.CACHE_MAX_SIZE)) }

/-- `TranscriptCache.get`: absent immediately when disabled or without a
backend; otherwise delegate with the derived transcript key. -/
def TranscriptCache.get {α : Type} (c : TranscriptCache α) (w : RedisOracle α) (now : Int)
    (video_id : String) (languages : Option (List String)) :
    Except Unit (Option α × TranscriptCache α) :=
  match c.backend with
  | none => .ok (none, c)
  | some bk =>
    if c.enabled then
      (bk.get w now (makeTranscriptKey video_id languages)).map
        (fun r => (r.1, { c with backend := some r.2 }))
    else .ok (none, c)

/-- `TranscriptCache.set`: no-op when disabled or without a backend;
otherwise delegate with the derived transcript key and the configured TTL
(the duck-typed segment conversion is the identity on canonical segment
records, so the stored value is passed through). -/
def TranscriptCache.set {α : Type} (c : TranscriptCache α) (w : RedisOracle α) (now : Int)
    (video_id : String) (transcript : α) (languages : Option (List String)) :
    Except Unit (TranscriptCache α) :=
  match c.backend with
  | none => .ok c
  | some bk =>
    if c.enabled then
      (bk.set w now (makeTranscriptKey video_id languages) transcript c.ttl_seconds).map
        (fun bk' => { c with backend := some bk' })
    else .ok c

/-- `TranscriptCache.get_metadata`. -/
def TranscriptCache.get_metadata {α : Type} (c : TranscriptCache α) (w : RedisOracle α)
    (now : Int) (video_id : String) : Except Unit (Option α × TranscriptCache α) :=
  match c.backend with
  | none => .ok (none, c)
  | some bk =>
    if c.enabled then
      (bk.get w now (makeMetadataKey video_id)).map
        (fun r => (r.1, { c with backend := some r.2 }))
    else .ok (none, c)

/-- `TranscriptCache.set_metadata`. -/
def TranscriptCache.set_metadata {α : Type} (c : TranscriptCache α) (w : RedisOracle α)
    (now : Int) (video_id : String) (metadata : α) : Except Unit (TranscriptCache α) :=
  match c.backend with
  | none => .ok c
  | some bk =>
    if c.enabled then
      (bk.set w now (makeMetadataKey video_id) metadata c.ttl_seconds).map
        (fun bk' => { c with backend := some bk' })
    else .ok c

/-- `TranscriptCache.clear`: delegates whenever a backend exists (the source
checks only `self._backend is not None`, not the enabled flag). -/
def TranscriptCache.clear {α : Type} (c : TranscriptCache α) (w : RedisOracle α) :
    Except Unit (TranscriptCache α) :=
  match c.backend with
  | none => .ok c
  | some bk => (bk.clear w).map (fun bk' => { c with backend := some bk' })

/-- `TranscriptCache.size`: 0 without a backend, else delegate. -/
def TranscriptCache.size {α : Type} (c : TranscriptCache α) (w : RedisOracle α) :
    Except Unit Nat :=
  match c.backend with
  | none => .ok 0
  | some bk => bk.size w

theorem redisGet_ok {α : Type} (w : RedisOracle α) :
    ∃ v, RedisCacheBackend.get w = .ok v := by
  cases hg : w.rawGet with
  | error e => exact ⟨none, by simp [RedisCacheBackend.get, hg]⟩
  | ok v =>
    cases v with
    | none => exact ⟨none, by simp [RedisCacheBackend.get, hg]⟩
    | some s =>
      cases hp : w.parse with
      | error e => exact ⟨none, by simp [RedisCacheBackend.get, hg, hp]⟩
      | ok x => exact ⟨some x, by simp [RedisCacheBackend.get, hg, hp]⟩

theorem redisSet_ok {α : Type} (w : RedisOracle α) : RedisCacheBackend.set w = .ok () := by
  cases hd : w.dumps with
  | error e => simp [RedisCacheBackend.set, hd]
  | ok s =>
    cases hs : w.setex with
    | error e => simp [RedisCacheBackend.set, hd, hs]
    | ok u => simp [RedisCacheBackend.set, hd, hs]

theorem redisClear_ok {α : Type} (w : RedisOracle α) : RedisCacheBackend.clear w = .ok () := by
  cases hc : w.scanClear with
  | error e => simp [RedisCacheBackend.clear, hc]
  | ok u => simp [RedisCacheBackend.clear, hc]

theorem redisSize_ok {α : Type} (w : RedisOracle α) :
    ∃ n, RedisCacheBackend.size w = .ok n := by
  cases hc : w.scanCount with
  | error e => exact ⟨0, by simp [RedisCacheBackend.size, hc]⟩
  | ok n => exact ⟨n, by simp [RedisCacheBackend.size, hc]⟩

theorem backendGet_ok {α : Type} (bk : Backend α) (w : RedisOracle α) (now : Int)
    (key : String) : ∃ r, bk.get w now key = .ok r := by
  cases bk with
  | memory b => exact ⟨_, rfl⟩
  | redis =>
    obtain ⟨v, hv⟩ := redisGet_ok w
    exact ⟨(v, .redis), by simp [Backend.get, Except.map, hv]⟩

theorem backendSet_ok {α : Type} (bk : Backend α) (w : RedisOracle α) (now : Int)
    (key : String) (value : α) (ttl : Int)
    (hmax : ∀ b : MemoryCacheBackend α, bk = .memory b → 1 ≤ b.max_size) :
    ∃ r, bk.set w now key value ttl = .ok r := by
  cases bk with
  | memory b =>
    obtain ⟨c2, hc2⟩ := evictWhile_isOk_of_pos b.max_size (hmax b rfl) (removeKey b.cache key)
    have hset : b.set now key value ttl =
        .ok { b with cache := c2 ++ [(key, value, now + ttl)] } :=
      (set_eq_ok b now key value ttl _).mpr ⟨c2, hc2, rfl⟩
    exact ⟨.memory { b with cache := c2 ++ [(key, value, now + ttl)] },
      by simp [Backend.set, Except.map, hset]⟩
  | redis => exact ⟨.redis, by simp [Backend.set, Except.map, redisSet_ok w]⟩

theorem backendClear_ok {α : Type} (bk : Backend α) (w : RedisOracle α) :
    ∃ r, bk.clear w = .ok r := by
  cases bk with
  | memory b => exact ⟨_, rfl⟩
  | redis => exact ⟨.redis, by simp [Backend.clear, Except.map, redisClear_ok w]⟩

theorem backendSize_ok {α : Type} (bk : Backend α) (w : RedisOracle α) :
    ∃ n, bk.size w = .ok n := by
  cases bk with
  | memory b => exact ⟨_, rfl⟩
  | redis => exact redisSize_ok w

/-- C6 (amended): every facade operation — transcript get/set, metadata
get/set, clear, size — called with any backend, any oracle outcome and any
arguments of the declared types, returns normally (`.ok`) and never
propagates an exception to the caller, **provided** any memory backend the
facade holds has `max_size ≥ 1` (as every facade constructed from settings
with a positive `CACHE_MAX_SIZE` does). The claim as stated, over all
facade states, is false: see the counterexample, where a transcript set on
a memory backend of `max_size = 0` raises `KeyError` out of the facade. -/
theorem c6_facade_never_raises {α : Type} (c : TranscriptCache α) (w : RedisOracle α)
    (now : Int) (video_id : String) (languages : Option (List String)) (transcript : α)
    (metadata : α)
    (hmem : ∀ b : MemoryCacheBackend α, c.backend = some (.memory b) → 1 ≤ b.max_size) :
    (∃ r, c.get w now video_id languages = .ok r) ∧
    (∃ r, c.set w now video_id transcript languages = .ok r) ∧
    (∃ r, c.get_metadata w now video_id = .ok r) ∧
    (∃ r, c.set_metadata w now video_id metadata = .ok r) ∧
    (∃ r, c.clear w = .ok r) ∧
    (∃ n, c.size w = .ok n) := by
  refine ⟨?_, ?_, ?_, ?_, ?_, ?_⟩
  · cases hb : c.backend with
    | none => exact ⟨(none, c), by simp [TranscriptCache.get, hb]⟩
    | some bk =>
      by_cases he : c.enabled
      · obtain ⟨r, hr⟩ := backendGet_ok bk w now (makeTranscriptKey video_id languages)
        exact ⟨(r.1, { c with backend := some r.2 }), by simp [TranscriptCache.get, Except.map, hb, he, hr]⟩
      · exact ⟨(none, c), by simp [TranscriptCache.get, hb, he]⟩
  · cases hb : c.backend with
    | none => exact ⟨c, by simp [TranscriptCache.set, hb]⟩
    | some bk =>
      by_cases he : c.enabled
      · obtain ⟨r, hr⟩ :=
          backendSet_ok bk w now (makeTranscriptKey video_id languages) transcript c.ttl_seconds
            (fun b hbk => hmem b (by rw [hb, hbk]))
        exact ⟨{ c with backend := some r }, by simp [TranscriptCache.set, Except.map, hb, he, hr]⟩
      · exact ⟨c, by simp [TranscriptCache.set, hb, he]⟩
  · cases hb : c.backend with
    | none => exact ⟨(none, c), by simp [TranscriptCache.get_metadata, hb]⟩
    | some bk =>
      by_cases he : c.enabled
      · obtain ⟨r, hr⟩ := backendGet_ok bk w now (makeMetadataKey video_id)
        exact ⟨(r.1, { c with backend := some r.2 }), by simp [TranscriptCache.get_metadata, Except.map, hb, he, hr]⟩
      · exact ⟨(none, c), by simp [TranscriptCache.get_metadata, hb, he]⟩
  · cases hb : c.backend with
    | none => exact ⟨c, by simp [TranscriptCache.set_metadata, hb]⟩
    | some bk =>
      by_cases he : c.enabled
      · obtain ⟨r, hr⟩ :=
          backendSet_ok bk w now (makeMetadataKey video_id) metadata c.ttl_seconds
            (fun b hbk => hmem b (by rw [hb, hbk]))
        exact ⟨{ c with backend := some r }, by simp [TranscriptCache.set_metadata, Except.map, hb, he, hr]⟩
      · exact ⟨c, by simp [TranscriptCache.set_metadata, hb, he]⟩
  · cases hb : c.backend with
    | none => exact ⟨c, by simp [TranscriptCache.clear, hb]⟩
    | some bk =>
      obtain ⟨r, hr⟩ := backendClear_ok bk w
      exact ⟨{ c with backend := some r }, by simp [TranscriptCache.clear, Except.map, hb, hr]⟩
  · cases hb : c.backend with
    | none => exact ⟨0, by simp [TranscriptCache.size, hb]⟩
    | some bk =>
      obtain ⟨n, hn⟩ := backendSize_ok bk w
      exact ⟨n, by simp [TranscriptCache.size, hb, hn]⟩

/-- Counterexample to C6 as stated: an enabled facade holding the memory
backend with `max_size = 0` (a value of the declared type `int`). There,
`set`'s eviction loop pops the empty ordered dict, Python raises
`KeyError`, and the facade — which has no `try/except` — propagates it:
the operation does **not** return normally. -/
theorem c6_facade_never_raises_counterexample :
    TranscriptCache.set
        (TranscriptCache.mk true 3600 0 "memory"
          (some (Backend.memory (MemoryCacheBackend.mk [] 0))) : TranscriptCache Nat)
        (RedisOracle.mk (.ok none) (.ok 0) (.ok "") (.ok ()) (.ok ()) (.ok ()) (.ok 0))
        0 "v" 42 none = .error () ∧
      ¬ ∃ r, TranscriptCache.set
          (TranscriptCache.mk true 3600 0 "memory"
            (some (Backend.memory (MemoryCacheBackend.mk [] 0))) : TranscriptCache Nat)
          (RedisOracle.mk (.ok none) (.ok 0) (.ok "") (.ok ()) (.ok ()) (.ok ()) (.ok 0))
          0 "v" 42 none = .ok r := by
  have h1 : TranscriptCache.set
      (TranscriptCache.mk true 3600 0 "memory"
        (some (Backend.memory (MemoryCacheBackend.mk [] 0))) : TranscriptCache Nat)
      (RedisOracle.mk (.ok none) (.ok 0) (.ok "") (.ok ()) (.ok ()) (.ok ()) (.ok 0))
      0 "v" 42 none = .error () := rfl
  refine ⟨h1, ?_⟩
  rintro ⟨r, hr⟩
  rw [h1] at hr
  exact Except.noConfusion hr

/-- Witness for the amended C6 at a concrete input: an enabled facade on a
memory backend with `max_size = 5`. -/
theorem c6_facade_never_raises_witness :
    (∀ b : MemoryCacheBackend Nat,
        (TranscriptCache.mk true 3600 5 "memory"
            (some (Backend.memory (MemoryCacheBackend.mk [] 5))) :
          TranscriptCache Nat).backend = some (.memory b) → 1 ≤ b.max_size) ∧
      ((∃ r, (TranscriptCache.mk true 3600 5 "memory"
            (some (Backend.memory (MemoryCacheBackend.mk [] 5))) : TranscriptCache Nat).get
          (RedisOracle.mk (.ok none) (.ok 0) (.ok "") (.ok ()) (.ok ()) (.ok ()) (.ok 0))
          0 "v" none = .ok r) ∧
        (∃ r, (TranscriptCache.mk true 3600 5 "memory"
            (some (Backend.memory (MemoryCacheBackend.mk [] 5))) : TranscriptCache Nat).set
          (RedisOracle.mk (.ok none) (.ok 0) (.ok "") (.ok ()) (.ok ()) (.ok ()) (.ok 0))
          0 "v" 42 none = .ok r) ∧
        (∃ r, (TranscriptCache.mk true 3600 5 "memory"
            (some (Backend.memory (MemoryCacheBackend.mk [] 5))) :
              TranscriptCache Nat).get_metadata
          (RedisOracle.mk (.ok none) (.ok 0) (.ok "") (.ok ()) (.ok ()) (.ok ()) (.ok 0))
          0 "v" = .ok r) ∧
        (∃ r, (TranscriptCache.mk true 3600 5 "memory"
            (some (Backend.memory (MemoryCacheBackend.mk [] 5))) :
              TranscriptCache Nat).set_metadata
          (RedisOracle.mk (.ok none) (.ok 0) (.ok "") (.ok ()) (.ok ()) (.ok ()) (.ok 0))
          0 "v" 7 = .ok r) ∧
        (∃ r, (TranscriptCache.mk true 3600 5 "memory"
            (some (Backend.memory (MemoryCacheBackend.mk [] 5))) : TranscriptCache Nat).clear
          (RedisOracle.mk (.ok none) (.ok 0) (.ok "") (.ok ()) (.ok ()) (.ok ()) (.ok 0)) =
            .ok r) ∧
        (∃ n, (TranscriptCache.mk true 3600 5 "memory"
            (some (Backend.memory (MemoryCacheBackend.mk [] 5))) : TranscriptCache Nat).size
          (RedisOracle.mk (.ok none) (.ok 0) (.ok "") (.ok ()) (.ok ()) (.ok ()) (.ok 0)) =
            .ok n)) := by
  have hmem : ∀ b : MemoryCacheBackend Nat,
      (TranscriptCache.mk true 3600 5 "memory"
          (some (Backend.memory (MemoryCacheBackend.mk [] 5))) :
        TranscriptCache Nat).backend = some (.memory b) → 1 ≤ b.max_size := by
    intro b hb
    simp only [Option.some.injEq, Backend.memory.injEq] at hb
    rw [← hb]
    decide
  exact ⟨hmem,
    c6_facade_never_raises
      (TranscriptCache.mk true 3600 5 "memory"
        (some (Backend.memory (MemoryCacheBackend.mk [] 5))))
      (RedisOracle.mk (.ok none) (.ok 0) (.ok "") (.ok ()) (.ok ()) (.ok ()) (.ok 0))
      0 "v" none 42 7 hmem⟩

/-- A domain-level facade call (transcript or metadata, read or write),
with the instant at which it runs. -/
inductive FacadeOp (α : Type) where
  | getTranscript (now : Int) (video_id : String) (languages : Option (List String))
  | setTranscript (now : Int) (video_id : String) (transcript : α)
      (languages : Option (List String))
  | getMetadata (now : Int) (video_id : String)
  | setMetadata (now : Int) (video_id : String) (metadata : α)

/-- State effect of one facade call (results are discarded; a call that
raises aborts with the state unchanged — reachable only through a
memory-backend set with non-positive `max_size`). -/
def applyFacadeOp {α : Type} (c : TranscriptCache α) (w : RedisOracle α) :
    FacadeOp α → TranscriptCache α
  | .getTranscript now vid ls =>
    match c.get w now vid ls with
    | .ok r => r.2
    | .error _ => c
  | .setTranscript now vid v ls =>
    match c.set w now vid v ls with
    | .ok c' => c'
    | .error _ => c
  | .getMetadata now vid =>
    match c.get_metadata w now vid with
    | .ok r => r.2
    | .error _ => c
  | .setMetadata now vid v =>
    match c.set_metadata w now vid v with
    | .ok c' => c'
    | .error _ => c

/-- Facade state after a finite sequence of facade calls. -/
def applyFacadeOps {α : Type} (c : TranscriptCache α) (w : RedisOracle α)
    (ops : List (FacadeOp α)) : TranscriptCache α :=
  ops.foldl (fun c' op => applyFacadeOp c' w op) c

theorem applyFacadeOp_backend_none {α : Type} (c : TranscriptCache α) (w : RedisOracle α)
    (op : FacadeOp α) (hb : c.backend = none) : applyFacadeOp c w op = c := by
  cases op with
  | getTranscript now vid ls => simp [applyFacadeOp, TranscriptCache.get, hb]
  | setTranscript now vid v ls => simp [applyFacadeOp, TranscriptCache.set, hb]
  | getMetadata now vid => simp [applyFacadeOp, TranscriptCache.get_metadata, hb]
  | setMetadata now vid v => simp [applyFacadeOp, TranscriptCache.set_metadata, hb]

theorem applyFacadeOps_backend_none {α : Type} (w : RedisOracle α) (ops : List (FacadeOp α)) :
    ∀ c : TranscriptCache α, c.backend = none → applyFacadeOps c w ops = c := by
  induction ops with
  | nil => intro c _; rfl
  | cons op rest ih =>
    intro c hb
    have h1 := applyFacadeOp_backend_none c w op hb
    calc applyFacadeOps c w (op :: rest)
        = applyFacadeOps (applyFacadeOp c w op) w rest := rfl
      _ = applyFacadeOp c w op := ih _ (by rw [h1]; exact hb)
      _ = c := h1

/-- C7: a facade constructed with caching disabled holds no backend; any
sequence of transcript/metadata get/set calls leaves the facade state
unchanged, every transcript or metadata `get` returns absent (for any
oracle, so no backend operation is consulted), and `size()` still
returns 0 afterwards. -/
theorem c7_disabled_facade_noop {α : Type} (s : Settings) (ri : Except Unit Unit)
    (h : s.CACHE_ENABLED = false) (w : RedisOracle α) (ops : List (FacadeOp α))
    (now : Int) (vid : String) (ls : Option (List String)) :
    (TranscriptCache.init α s ri).backend = none ∧
    applyFacadeOps (TranscriptCache.init α s ri) w ops = TranscriptCache.init α s ri ∧
    (TranscriptCache.init α s ri).get w now vid ls =
        .ok (none, TranscriptCache.init α s ri) ∧
    (TranscriptCache.init α s ri).get_metadata w now vid =
        .ok (none, TranscriptCache.init α s ri) ∧
    TranscriptCache.size (applyFacadeOps (TranscriptCache.init α s ri) w ops) w = .ok 0 := by
  have hb : (TranscriptCache.init α s ri).backend = none := by
    simp [TranscriptCache.init, h]
  have hid := applyFacadeOps_backend_none w ops (TranscriptCache.init α s ri) hb
  refine ⟨hb, hid, ?_, ?_, ?_⟩
  · simp [TranscriptCache.get, hb]
  · simp [TranscriptCache.get_metadata, hb]
  · rw [hid]
    simp [TranscriptCache.size, hb]

/-- Witness for C7 at a concrete input: disabled settings, one write then
one read. -/
theorem c7_disabled_facade_noop_witness :
    (Settings.mk false 3600 1000 "memory" "redis://localhost").CACHE_ENABLED = false ∧
      ((TranscriptCache.init Nat (Settings.mk false 3600 1000 "memory" "redis://localhost")
          (.ok ())).backend = none ∧
        applyFacadeOps
            (TranscriptCache.init Nat (Settings.mk false 3600 1000 "memory" "redis://localhost")
              (.ok ()))
            (RedisOracle.mk (.ok none) (.ok 0) (.ok "") (.ok ()) (.ok ()) (.ok ()) (.ok 0))
            [FacadeOp.setTranscript 0 "v" 42 none, FacadeOp.getTranscript 1 "v" none] =
          TranscriptCache.init Nat (Settings.mk false 3600 1000 "memory" "redis://localhost")
            (.ok ()) ∧
        (TranscriptCache.init Nat (Settings.mk false 3600 1000 "memory" "redis://localhost")
              (.ok ())).get
            (RedisOracle.mk (.ok none) (.ok 0) (.ok "") (.ok ()) (.ok ()) (.ok ()) (.ok 0))
            2 "v" none =
          .ok (none,
            TranscriptCache.init Nat (Settings.mk false 3600 1000 "memory" "redis://localhost")
              (.ok ())) ∧
        (TranscriptCache.init Nat (Settings.mk false 3600 1000 "memory" "redis://localhost")
              (.ok ())).get_metadata
            (RedisOracle.mk (.ok none) (.ok 0) (.ok "") (.ok ()) (.ok ()) (.ok ()) (.ok 0))
            2 "v" =
          .ok (none,
            TranscriptCache.init Nat (Settings.mk false 3600 1000 "memory" "redis://localhost")
              (.ok ())) ∧
        TranscriptCache.size
            (applyFacadeOps
              (TranscriptCache.init Nat (Settings.mk false 3600 1000 "memory" "redis://localhost")
                (.ok ()))
              (RedisOracle.mk (.ok none) (.ok 0) (.ok "") (.ok ()) (.ok ()) (.ok ()) (.ok 0))
              [FacadeOp.setTranscript 0 "v" 42 none, FacadeOp.getTranscript 1 "v" none])
            (RedisOracle.mk (.ok none) (.ok 0) (.ok "") (.ok ()) (.ok ()) (.ok ()) (.ok 0)) =
          .ok 0) :=
  ⟨rfl,
    c7_disabled_facade_noop (Settings.mk false 3600 1000 "memory" "redis://localhost") (.ok ()) rfl
      (RedisOracle.mk (.ok none) (.ok 0) (.ok "") (.ok ()) (.ok ()) (.ok ()) (.ok 0))
      [FacadeOp.setTranscript 0 "v" 42 none, FacadeOp.getTranscript 1 "v" none] 2 "v" none⟩

/-- C8: with the `"redis"` backend selector and a failing remote-backend
construction, facade construction still succeeds: it installs the bounded
LRU memory backend with the configured maximum size and records
`backend_type = "memory"`. -/
theorem c8_redis_init_failure_falls_back {α : Type} (s : Settings) (e : Unit)
    (hen : s.CACHE_ENABLED = true) (hbk : s.CACHE_BACKEND = "redis") :
    (TranscriptCache.init α s (.error e)).backend =
        some (.memory (MemoryCacheBackend.empty α s.CACHE_MAX_SIZE)) ∧
    (TranscriptCache.init α s (.error e)).backend_type = "memory" ∧
    (TranscriptCache.init α s (.error e)).enabled = true ∧
    (TranscriptCache.init α s (.error e)).max_size = s.CACHE_MAX_SIZE := by
  simp [TranscriptCache.init, hen, hbk]

/-- Witness for C8 at a concrete input. -/
theorem c8_redis_init_failure_falls_back_witness :
    (Settings.mk true 3600 500 "redis" "redis://host").CACHE_ENABLED = true ∧
      (Settings.mk true 3600 500 "redis" "redis://host").CACHE_BACKEND = "redis" ∧
      ((TranscriptCache.init Nat (Settings.mk true 3600 500 "redis" "redis://host")
            (.error ())).backend =
          some (.memory (MemoryCacheBackend.empty Nat 500)) ∧
        (TranscriptCache.init Nat (Settings.mk true 3600 500 "redis" "redis://host")
            (.error ())).backend_type = "memory" ∧
        (TranscriptCache.init Nat (Settings.mk true 3600 500 "redis" "redis://host")
            (.error ())).enabled = true ∧
        (TranscriptCache.init Nat (Settings.mk true 3600 500 "redis" "redis://host")
            (.error ())).max_size = 500) :=
  ⟨rfl, rfl,
    c8_redis_init_failure_falls_back (Settings.mk true 3600 500 "redis" "redis://host") ()
      rfl rfl⟩

/-- The scan loop of `TranscriptCache.cleanup_expired` on the memory
backend: iterate over a snapshot of the keys, delete the entries whose
expiry has strictly passed, count the deletions. -/
def cleanupLoop {α : Type} (now : Int) :
    List String → List (CacheEntry α) → Nat × List (CacheEntry α)
  | [], c => (0, c)
  | k :: ks, c =>
    match lookupEntry c k with
    | none => cleanupLoop now ks c
    | some (_, exp) =>
      if exp < now then
        let r := cleanupLoop now ks (removeKey c k)
        (r.1 + 1, r.2)
      else cleanupLoop now ks c

/-- `TranscriptCache.cleanup_expired`: 0 when disabled or without a backend;
on the memory backend, scan `list(self._backend._cache.keys())` and remove
the expired entries, returning how many were removed; on the Redis backend,
0 (the store expires keys server-side). -/
def TranscriptCache.cleanup_expired {α : Type} (c : TranscriptCache α) (now : Int) :
    Nat × TranscriptCache α :=
  if c.enabled then
    match c.backend with
    | none => (0, c)
    | some (.memory b) =>
      let r := cleanupLoop now (b.cache.map Prod.fst) b.cache
      (r.1, { c with backend := some (.memory { b with cache := r.2 }) })
    | some .redis => (0, c)
  else (0, c)

theorem cleanupLoop_spec {α : Type} (now : Int) :
    ∀ (rest kept : List (CacheEntry α)),
      ((kept ++ rest).map Prod.fst).Nodup →
      cleanupLoop now (rest.map Prod.fst) (kept ++ rest) =
        ((rest.filter (fun e => decide (e.2.2 < now))).length,
         kept ++ rest.filter (fun e => ¬ e.2.2 < now)) := by
  intro rest
  induction rest with
  | nil => intro kept _; simp [cleanupLoop]
  | cons e rest' ih =>
    intro kept hnodup
    obtain ⟨k, v, exp⟩ := e
    have hmap : (kept ++ (k, v, exp) :: rest').map Prod.fst =
        kept.map Prod.fst ++ k :: rest'.map Prod.fst := by simp
    rw [hmap, List.nodup_append] at hnodup
    obtain ⟨hnk, hnr, hdisj⟩ := hnodup
    have hkpre : k ∉ kept.map Prod.fst := fun hmem => hdisj hmem (List.mem_cons_self _ _)
    have hkpost : k ∉ rest'.map Prod.fst := (List.nodup_cons.mp hnr).1
    have hlook : lookupEntry (kept ++ (k, v, exp) :: rest') k = some (v, exp) := by
      rw [lookupEntry_append_of_none _ _ _ (lookupEntry_eq_none_of_not_mem _ _ hkpre)]
      simp [lookupEntry]
    by_cases hexp : exp < now
    · have hrem : removeKey (kept ++ (k, v, exp) :: rest') k = kept ++ rest' := by
        rw [removeKey_append, removeKey_eq_self _ _ hkpre]
        have h2 : removeKey ((k, v, exp) :: rest') k = removeKey rest' k := by
          simp [removeKey]
        rw [h2, removeKey_eq_self _ _ hkpost]
      have hnodup' : ((kept ++ rest').map Prod.fst).Nodup := by
        rw [List.map_append, List.nodup_append]
        exact ⟨hnk, (List.nodup_cons.mp hnr).2,
          fun a ha hb => hdisj ha (List.mem_cons_of_mem _ hb)⟩
      have hih := ih kept hnodup'
      simp only [List.map_cons, cleanupLoop, hlook, if_pos hexp, hrem, hih,
        List.filter_cons]
      simp [hexp]
    · have hnodup' : (((kept ++ [(k, v, exp)]) ++ rest').map Prod.fst).Nodup := by
        have : (kept ++ [(k, v, exp)]) ++ rest' = kept ++ (k, v, exp) :: rest' := by
          simp
        rw [this, hmap, List.nodup_append]
        exact ⟨hnk, hnr, hdisj⟩
      have hih := ih (kept ++ [(k, v, exp)]) hnodup'
      have hshape : (kept ++ [(k, v, exp)]) ++ rest' = kept ++ (k, v, exp) :: rest' := by
        simp
      rw [hshape] at hih
      simp only [List.map_cons, cleanupLoop, hlook, if_neg hexp, hih, List.filter_cons]
      simp [hexp]

/-- C10: `cleanup_expired` on an enabled facade with the memory backend
(distinct keys) removes exactly the entries whose expiry instant has
strictly passed and returns their number, keeping every unexpired entry
with its value, expiry and relative order (so afterwards no stored entry is
expired); with the facade disabled, no backend, or the Redis backend it
returns 0 and changes nothing. -/
theorem c10_cleanup_expired_spec {α : Type} (c : TranscriptCache α) (now : Int) :
    (∀ b : MemoryCacheBackend α, c.enabled = true → c.backend = some (.memory b) →
      ((b.cache.map Prod.fst).Nodup) →
      c.cleanup_expired now =
        ((b.cache.filter (fun e => decide (e.2.2 < now))).length,
         { c with backend := some (.memory
            { b with cache := b.cache.filter (fun e => ¬ e.2.2 < now) }) })) ∧
    (c.enabled = false → c.cleanup_expired now = (0, c)) ∧
    (c.backend = some .redis → c.cleanup_expired now = (0, c)) ∧
    (c.backend = none → c.cleanup_expired now = (0, c)) := by
  refine ⟨?_, ?_, ?_, ?_⟩
  · intro b hen hb hnodup
    have hspec := cleanupLoop_spec now b.cache [] (by simpa using hnodup)
    simp only [List.nil_append] at hspec
    simp [TranscriptCache.cleanup_expired, hen, hb, hspec]
  · intro hen
    simp [TranscriptCache.cleanup_expired, hen]
  · intro hb
    by_cases hen : c.enabled
    · simp [TranscriptCache.cleanup_expired, hen, hb]
    · simp [TranscriptCache.cleanup_expired, hen]
  · intro hb
    by_cases hen : c.enabled
    · simp [TranscriptCache.cleanup_expired, hen, hb]
    · simp [TranscriptCache.cleanup_expired, hen]

/-- Witness for C10 at a concrete input: one expired and one live entry. -/
theorem c10_cleanup_expired_spec_witness :
    ((TranscriptCache.mk true 3600 10 "memory"
        (some (.memory (MemoryCacheBackend.mk [("a", 1, 5), ("b", 2, 100)] 10))) :
          TranscriptCache Nat).enabled = true) ∧
      ((TranscriptCache.mk true 3600 10 "memory"
          (some (.memory (MemoryCacheBackend.mk [("a", 1, 5), ("b", 2, 100)] 10))) :
            TranscriptCache Nat).cleanup_expired 50 =
        (1, TranscriptCache.mk true 3600 10 "memory"
          (some (.memory (MemoryCacheBackend.mk [("b", 2, 100)] 10))))) := by
  have h := (c10_cleanup_expired_spec
    (TranscriptCache.mk true 3600 10 "memory"
      (some (.memory (MemoryCacheBackend.mk [("a", 1, 5), ("b", 2, 100)] 10))) :
        TranscriptCache Nat) 50).1
    (MemoryCacheBackend.mk [("a", 1, 5), ("b", 2, 100)] 10) rfl rfl (by decide)
  refine ⟨rfl, ?_⟩
  rw [h]
  decide
